import Mathlib

/-!
Shallow embedding of `product_summary_api.py` (navneetkrc/llm-rag-with-reranker-demo).

The embedding mirrors the repository source:
* `extractBullets` embeds the list comprehension in
  `ProductProcessor._generate_product_summary` that turns generated text into
  bullet points.
* `generateProductSummary` embeds `ProductProcessor._generate_product_summary`;
  the external `ollama.chat` call (together with `json.dumps` serialization of
  the record and the `response['message']['content']` field access, all of
  which sit inside the same `try` block) is modelled as a parameter
  `gen : JValue → Except String String` whose `Except.error` case stands for
  any exception raised in that block.
* `processLoop` / `processJsonDocument` embed
  `ProductProcessor.process_json_document`; the external `json.loads` is
  modelled by taking the decode result `Except String JValue` as input, and the
  Streamlit progress calls are modelled as an explicit event trace.
* `folderLoop` / `processFolder` embed `FolderProcessor.process_folder`; file
  reads are modelled as `Except String String` per discovered file, and writes
  as an explicit `(path, content)` event list.
-/

set_option autoImplicit false

namespace ProductSummary

/-- Python whitespace as used by `str.strip()` (modelled by `Char.isWhitespace`:
space, tab, carriage return, newline). -/
def isSpaceChar (c : Char) : Bool := c.isWhitespace

/-- Membership of a character in the Python string literal `'•-*'`, as used in
`point.strip()[0] in '•-*'` and `lstrip('•-*')`. -/
def isMarker (c : Char) : Bool := c = '•' || c = '-' || c = '*'

/-- Python `str.lstrip` with an explicit character predicate. -/
def pyLstrip (p : Char → Bool) (l : List Char) : List Char := l.dropWhile p

/-- Python `str.rstrip` with an explicit character predicate. -/
def pyRstrip (p : Char → Bool) (l : List Char) : List Char :=
  (l.reverse.dropWhile p).reverse

/-- Python `str.strip()` (no argument): remove leading and trailing whitespace. -/
def pyStrip (l : List Char) : List Char :=
  pyRstrip isSpaceChar (pyLstrip isSpaceChar l)

/-- Python `str.split(sep)` for a single-character separator: splits on every
occurrence, keeping empty pieces (`''.split('\n') == ['']`). -/
def splitOnChar (sep : Char) : List Char → List (List Char)
  | [] => [[]]
  | x :: xs =>
    let r := splitOnChar sep xs
    if x = sep then
      [] :: r
    else
      match r with
      | [] => [[x]]
      | y :: ys => (x :: y) :: ys

/-- The lines of `summary_text.split('\n')`, at the character-list level. -/
def linesOf (s : String) : List (List Char) := splitOnChar '\n' s.data

/-- The filter of the comprehension in `_generate_product_summary`:
`point.strip() and point.strip()[0] in '•-*'`. -/
def isBulletLine (l : List Char) : Bool :=
  match pyStrip l with
  | [] => false
  | c :: _ => isMarker c

/-- The element expression of the comprehension:
`point.strip().lstrip('•-*').strip()`. -/
def cleanLine (l : List Char) : List Char :=
  pyStrip (pyLstrip isMarker (pyStrip l))

/-- The bullet-point extraction in `_generate_product_summary`:
`[point.strip().lstrip('•-*').strip() for point in summary_text.split('\n')
  if point.strip() and point.strip()[0] in '•-*']`. -/
def extractBullets (s : String) : List String :=
  ((linesOf s).filter isBulletLine).map (fun l => String.mk (cleanLine l))

/-- JSON values as produced by `json.loads` (numbers restricted to integers;
no claim depends on float behaviour). -/
inductive JValue where
  | null : JValue
  | bool : Bool → JValue
  | num : Int → JValue
  | str : String → JValue
  | arr : List JValue → JValue
  | obj : List (String × JValue) → JValue
  deriving Inhabited

/-- Python `isinstance(x, dict)`. -/
def isObj : JValue → Bool
  | .obj _ => true
  | _ => false

/-- Python `isinstance(x, list)`. -/
def isArr : JValue → Bool
  | .arr _ => true
  | _ => false

/-- Python dict lookup `d[k]` as an option, first matching key wins. -/
def lookupKey : List (String × JValue) → String → Option JValue
  | [], _ => none
  | (k0, v0) :: rest, k => if k0 = k then some v0 else lookupKey rest k

/-- Python dict assignment `d[k] = v`: overwrite in place if the key exists,
otherwise append at the end (CPython insertion order). -/
def setKey : List (String × JValue) → String → JValue → List (String × JValue)
  | [], k, v => [(k, v)]
  | (k0, v0) :: rest, k, v =>
    if k0 = k then (k0, v) :: rest else (k0, v0) :: setKey rest k v

/-- Whether a JSON value is a mapping holding the given key. -/
def hasKey (v : JValue) (k : String) : Bool :=
  match v with
  | .obj fs => (lookupKey fs k).isSome
  | _ => false

/-- A Python list of strings as a JSON value, as stored under `ai_summary`. -/
def jsonOfSummary (bs : List String) : JValue := .arr (bs.map .str)

/-- `ProductProcessor._generate_product_summary`: serialize the record, call
the generation capability, extract the text and its bullet points; any
exception in that `try` block (modelled by `gen` returning `Except.error`)
yields the literal fallback `["Error generating summary"]`. -/
def generateProductSummary (gen : JValue → Except String String)
    (product : JValue) : List String :=
  match gen product with
  | .error _ => ["Error generating summary"]
  | .ok text => extractBullets text

/-- Observable events of the document-processing loop: a Streamlit progress
update `st.progress(i / len(products), ...)` carrying the 1-based position and
the total count, and an invocation of `_generate_product_summary`. -/
inductive Ev where
  | progress : Nat → Nat → Ev
  | genCall : Ev
  deriving DecidableEq

/-- The errors `process_json_document` re-raises: `json.JSONDecodeError` from
`json.loads`, and the `ValueError` raised when the decoded value is not a
list. Each carries its `str(e)` message. -/
inductive DocErr where
  | decodeError : String → DocErr
  | shapeError : String → DocErr
  deriving DecidableEq

/-- `str(e)` of a re-raised document error. -/
def DocErr.message : DocErr → String
  | .decodeError m => m
  | .shapeError m => m

/-- The `for i, product in enumerate(products, 1):` loop of
`process_json_document`: non-dict elements are skipped by `continue` (before
the progress call); for dict elements a progress event is emitted, then the
summary is generated and stored under `ai_summary`. Returns the event trace
and the resulting list. -/
def processLoop (gen : JValue → Except String String) (total : Nat) :
    Nat → List JValue → List Ev × List JValue
  | _, [] => ([], [])
  | i, v :: rest =>
    let (tr, out) := processLoop gen total (i + 1) rest
    match v with
    | .obj fields =>
      let summary := generateProductSummary gen (.obj fields)
      (.progress i total :: .genCall :: tr,
       .obj (setKey fields "ai_summary" (jsonOfSummary summary)) :: out)
    | other => (tr, other :: out)

/-- `ProductProcessor.process_json_document`. The external `json.loads` is
modelled by the `decoded` argument: `Except.error msg` for invalid JSON text
(carrying `str(e)` of the `JSONDecodeError`), `Except.ok v` for the decoded
value. Returns the progress/generation event trace together with either the
re-raised error or the processed list. -/
def processJsonDocument (gen : JValue → Except String String)
    (decoded : Except String JValue) : List Ev × Except DocErr (List JValue) :=
  match decoded with
  | .error e => ([], .error (.decodeError e))
  | .ok v =>
    match v with
    | .arr products =>
      let r := processLoop gen products.length 1 products
      (r.1, .ok r.2)
    | _ => ([], .error (.shapeError "JSON content must be a list of products"))

/-- One entry of the `results` dict built by `FolderProcessor.process_folder`:
either `{'status': 'success', 'output_path': ..., 'product_count': ...}` or
`{'status': 'error', 'error': ...}`. -/
inductive Outcome where
  | success : Nat → String → Outcome
  | failure : String → Outcome
  deriving DecidableEq

/-- Whether an outcome is a `success` entry. -/
def Outcome.isSuccess : Outcome → Bool
  | .success _ _ => true
  | .failure _ => false

/-- Whether processing a discovered file fails: the read raises, or
`process_json_document` re-raises a document error. -/
def fileFails (gen : JValue → Except String String)
    (decode : String → Except String JValue)
    (file : String × Except String String) : Bool :=
  match file.2 with
  | .error _ => true
  | .ok content =>
    match (processJsonDocument gen (decode content)).2 with
    | .error _ => true
    | .ok _ => false

/-- Lowercase hexadecimal digit, as in Python's `\uXXXX` escapes. -/
def hexDigit (n : Nat) : Char :=
  if n < 10 then Char.ofNat (48 + n) else Char.ofNat (87 + n)

/-- Four-digit lowercase hexadecimal rendering of `n % 0x10000`. -/
def hex4 (n : Nat) : String :=
  String.mk [hexDigit (n / 4096 % 16), hexDigit (n / 256 % 16),
             hexDigit (n / 16 % 16), hexDigit (n % 16)]

/-- Python `json.dumps` escape of one character (`ensure_ascii=True` default):
short escapes for the JSON control shorthands, `\uXXXX` (with surrogate pairs
above the BMP) for other control and non-ASCII characters. -/
def escapeChar (c : Char) : String :=
  if c = '"' then "\\\""
  else if c = '\\' then "\\\\"
  else if c = '\n' then "\\n"
  else if c = '\t' then "\\t"
  else if c = '\r' then "\\r"
  else if c = '\x08' then "\\b"
  else if c = '\x0c' then "\\f"
  else if c.toNat < 0x20 || c.toNat > 0x7e then
    if c.toNat < 0x10000 then "\\u" ++ hex4 c.toNat
    else
      let m := c.toNat - 0x10000
      "\\u" ++ hex4 (0xd800 + m / 0x400) ++ "\\u" ++ hex4 (0xdc00 + m % 0x400)
  else String.singleton c

/-- Python `json.dumps` rendering of a string literal. -/
def quoteStr (s : String) : String :=
  "\"" ++ String.join (s.data.map escapeChar) ++ "\""

/-- Two-space indentation at nesting depth `lvl`, as produced by
`json.dumps(..., indent=2)`. -/
def indentStr (lvl : Nat) : String := String.mk (List.replicate (2 * lvl) ' ')

mutual

/-- `json.dumps(v, indent=2)` at nesting depth `lvl`: scalars inline; empty
containers as `[]` / `\x7b\x7d`; non-empty containers with each item on its
own line, indented two further spaces, separators `,` and `: `. -/
def dumpVal (lvl : Nat) : JValue → String
  | .null => "null"
  | .bool true => "true"
  | .bool false => "false"
  | .num n => toString n
  | .str s => quoteStr s
  | .arr [] => "[]"
  | .arr (x :: xs) =>
    "[\n" ++ dumpItems (lvl + 1) x xs ++ "\n" ++ indentStr lvl ++ "]"
  | .obj [] => "\x7b\x7d"
  | .obj ((k, v) :: fs) =>
    "\x7b\n" ++ dumpFields (lvl + 1) k v fs ++ "\n" ++ indentStr lvl ++ "\x7d"
termination_by v => sizeOf v
decreasing_by all_goals (simp_wf; try omega)

/-- The comma-and-newline separated items of a non-empty JSON array. -/
def dumpItems (lvl : Nat) (x : JValue) : List JValue → String
  | [] => indentStr lvl ++ dumpVal lvl x
  | y :: ys => indentStr lvl ++ dumpVal lvl x ++ ",\n" ++ dumpItems lvl y ys
termination_by l => sizeOf x + sizeOf l
decreasing_by all_goals (simp_wf; try omega)

/-- The comma-and-newline separated fields of a non-empty JSON object, the
first field given as its key and value. -/
def dumpFields (lvl : Nat) (k : String) (v : JValue) :
    List (String × JValue) → String
  | [] => indentStr lvl ++ quoteStr k ++ ": " ++ dumpVal lvl v
  | (k2, v2) :: gs =>
    indentStr lvl ++ quoteStr k ++ ": " ++ dumpVal lvl v ++ ",\n" ++
      dumpFields lvl k2 v2 gs
termination_by l => sizeOf v + sizeOf l
decreasing_by all_goals (simp_wf; try omega)

end

/-- `json.dumps(v, indent=2)` as written by `process_folder`. -/
def jsonDumpsIndent2 (v : JValue) : String := dumpVal 0 v

/-- The `for json_file in json_files:` loop of `process_folder`. Each
discovered file is a pair of its name and the result of reading it
(`Except.error msg` when `open`/`read` raises). `decode` models `json.loads`
on the file's text. Returns the list of file-write events
`(output path, written text)` and the outcome entries in file order. -/
def folderLoop (gen : JValue → Except String String)
    (decode : String → Except String JValue) (folderPath : String) :
    List (String × Except String String) →
      List (String × String) × List (String × Outcome)
  | [] => ([], [])
  | (name, readRes) :: rest =>
    let r := folderLoop gen decode folderPath rest
    match readRes with
    | .error msg => (r.1, (name, .failure msg) :: r.2)
    | .ok content =>
      match (processJsonDocument gen (decode content)).2 with
      | .error e => (r.1, (name, .failure e.message) :: r.2)
      | .ok processed =>
        let outPath := folderPath ++ "/processed_" ++ name
        ((outPath, jsonDumpsIndent2 (.arr processed)) :: r.1,
         (name, .success processed.length outPath) :: r.2)

/-- `FolderProcessor.process_folder` over the discovered `*.json` files. -/
def processFolder (gen : JValue → Except String String)
    (decode : String → Except String JValue) (folderPath : String)
    (files : List (String × Except String String)) :
    List (String × String) × List (String × Outcome) :=
  folderLoop gen decode folderPath files

/-- A generation capability that always fails (the model being unreachable). -/
def failingGen : JValue → Except String String :=
  fun _ => .error "model unavailable"

/-- The outcome entry `process_folder` records for one discovered file:
a read failure or a re-raised document error yields an error entry with the
exception's message; success yields a success entry with the processed length
and the sibling output path. -/
def fileOutcome (gen : JValue → Except String String)
    (decode : String → Except String JValue) (folderPath : String)
    (file : String × Except String String) : String × Outcome :=
  match file.2 with
  | .error msg => (file.1, .failure msg)
  | .ok content =>
    match (processJsonDocument gen (decode content)).2 with
    | .error e => (file.1, .failure e.message)
    | .ok processed =>
      (file.1,
       .success processed.length (folderPath ++ "/processed_" ++ file.1))

/-- The effect of one iteration of the `process_json_document` loop on one
element: dict elements get `ai_summary` attached, everything else passes
through unchanged. -/
def enrichElement (gen : JValue → Except String String) (v : JValue) : JValue :=
  match v with
  | .obj fields =>
    .obj (setKey fields "ai_summary"
      (jsonOfSummary (generateProductSummary gen (.obj fields))))
  | other => other

theorem processLoop_snd (gen : JValue → Except String String) (total : Nat) :
    ∀ (i : Nat) (ps : List JValue),
      (processLoop gen total i ps).2 = ps.map (enrichElement gen)
  | _, [] => rfl
  | i, v :: rest => by
    have ih := processLoop_snd gen total (i + 1) rest
    cases v <;> simp [processLoop, enrichElement, ih]

theorem processLoop_fst (gen : JValue → Except String String) (total : Nat) :
    ∀ (i : Nat) (ps : List JValue),
      (processLoop gen total i ps).1 = (List.enumFrom i ps).flatMap
        (fun p => if isObj p.2 = true then
          [Ev.progress p.1 total, Ev.genCall] else [])
  | _, [] => rfl
  | i, v :: rest => by
    have ih := processLoop_fst gen total (i + 1) rest
    cases v <;> simp [processLoop, isObj, ih]

theorem lookupKey_setKey_self :
    ∀ (fs : List (String × JValue)) (k : String) (v : JValue),
      lookupKey (setKey fs k v) k = some v
  | [], k, v => by simp [setKey, lookupKey]
  | (k0, v0) :: rest, k, v => by
    by_cases h : k0 = k <;>
      simp [setKey, lookupKey, h, lookupKey_setKey_self rest k v]

theorem enrichElement_of_not_obj (gen : JValue → Except String String)
    (v : JValue) (hv : isObj v = false) : enrichElement gen v = v := by
  cases v <;> simp_all [isObj, enrichElement]

theorem hasKey_of_not_obj (v : JValue) (k : String) (hv : isObj v = false) :
    hasKey v k = false := by
  cases v <;> simp_all [isObj, hasKey]

theorem hasKey_enrichElement (gen : JValue → Except String String) (v : JValue)
    (hv : isObj v = true) : hasKey (enrichElement gen v) "ai_summary" = true := by
  cases v <;> simp_all [isObj, enrichElement, hasKey, lookupKey_setKey_self]

end ProductSummary

namespace ProductSummary

/-- C1: for every input text that decodes to a JSON array,
`process_json_document` returns a collection of the same length and in the
same positional order as the input; every non-mapping element passes through
unchanged with no `ai_summary` key added, and every mapping element is
returned with an `ai_summary` key added. -/
theorem process_json_document_preserves_collection
    (gen : JValue → Except String String) (ps : List JValue) :
    ∃ out, (processJsonDocument gen (.ok (.arr ps))).2 = .ok out ∧
      out.length = ps.length ∧
      List.Forall₂ (fun v w =>
        (isObj v = false → w = v ∧ hasKey w "ai_summary" = false) ∧
        (isObj v = true → hasKey w "ai_summary" = true)) ps out := by
  refine ⟨ps.map (enrichElement gen), ?_, by simp, ?_⟩
  · simp [processJsonDocument, processLoop_snd]
  · rw [List.forall₂_map_right_iff, List.forall₂_same]
    intro v _
    refine ⟨fun hobj => ?_, fun hobj => hasKey_enrichElement gen v hobj⟩
    rw [enrichElement_of_not_obj gen v hobj]
    exact ⟨rfl, hasKey_of_not_obj v _ hobj⟩

/-- C2: `_generate_product_summary` never raises: a failed generation call
yields exactly `["Error generating summary"]`, and when the generation
capability always fails every mapping element of the processed batch carries
exactly that list under `ai_summary` while the batch still completes
successfully. -/
theorem generate_summary_fallback (gen : JValue → Except String String)
    (hfail : ∀ p, ∃ e, gen p = Except.error e) :
    (∀ p, generateProductSummary gen p = ["Error generating summary"]) ∧
    (∀ ps, ∃ out, (processJsonDocument gen (.ok (.arr ps))).2 = .ok out ∧
      out.length = ps.length ∧
      ∀ w ∈ out, ∀ fs, w = .obj fs →
        lookupKey fs "ai_summary" =
          some (.arr [.str "Error generating summary"])) := by
  have h1 : ∀ p, generateProductSummary gen p = ["Error generating summary"] := by
    intro p
    obtain ⟨e, he⟩ := hfail p
    simp [generateProductSummary, he]
  refine ⟨h1, fun ps => ⟨ps.map (enrichElement gen),
    by simp [processJsonDocument, processLoop_snd], by simp, ?_⟩⟩
  intro w hw fs hwfs
  obtain ⟨v, _, rfl⟩ := List.mem_map.mp hw
  cases v with
  | obj gs =>
    simp only [enrichElement, JValue.obj.injEq] at hwfs
    rw [← hwfs, h1]
    simpa [jsonOfSummary] using lookupKey_setKey_self gs "ai_summary" _
  | null => simp [enrichElement] at hwfs
  | bool b => simp [enrichElement] at hwfs
  | num n => simp [enrichElement] at hwfs
  | str t => simp [enrichElement] at hwfs
  | arr l => simp [enrichElement] at hwfs

/-- Witness for C2 at the always-failing generation capability and one
concrete record. -/
theorem generate_summary_fallback_witness :
    (∀ p, ∃ e, failingGen p = Except.error e) ∧
    generateProductSummary failingGen (.obj [("name", .str "Widget")]) =
      ["Error generating summary"] :=
  have h : ∀ p, ∃ e, failingGen p = Except.error e := fun _ => ⟨_, rfl⟩
  ⟨h, (generate_summary_fallback failingGen h).1 _⟩

/-- C3: `process_json_document` raises on exactly the two structural
conditions — a decode failure is re-raised as a decode error, a decoded
value that is not a list is re-raised as the shape error — while an input
that decodes to a list always returns without raising. -/
theorem process_json_document_error_taxonomy
    (gen : JValue → Except String String) (v : JValue)
    (hv : isArr v = false) :
    (∀ e, (processJsonDocument gen (.error e)).2 = .error (.decodeError e)) ∧
    (processJsonDocument gen (.ok v)).2 =
      .error (.shapeError "JSON content must be a list of products") ∧
    (∀ ps, ∃ out, (processJsonDocument gen (.ok (.arr ps))).2 = .ok out) := by
  refine ⟨fun e => rfl, ?_, fun ps => ⟨_, rfl⟩⟩
  cases v <;> simp_all [processJsonDocument, isArr]

/-- Witness for C3 at the non-array document of the spec's example. -/
theorem process_json_document_error_taxonomy_witness :
    isArr (.obj [("a", .num 1)]) = false ∧
    (processJsonDocument failingGen (.ok (.obj [("a", .num 1)]))).2 =
      .error (.shapeError "JSON content must be a list of products") :=
  ⟨rfl, (process_json_document_error_taxonomy failingGen
    (.obj [("a", .num 1)]) rfl).2.1⟩

/-- C5: the bullet extraction is total — it returns a list for every string —
and the empty string yields the empty list. -/
theorem extract_bullets_total :
    extractBullets "" = [] ∧
    ∀ s : String, ∃ bs : List String, extractBullets s = bs :=
  ⟨rfl, fun _ => ⟨_, rfl⟩⟩

end ProductSummary

namespace ProductSummary

/-- C4: for text whose lines all start (after trimming) with a bullet marker
followed by non-empty content, the extraction returns exactly one bullet per
line, each the cleaned line, in original order; and in general the number of
bullets equals the number of marker lines, so a non-marker line never
contributes a bullet. -/
theorem extract_bullets_marker_lines (s : String)
    (h1 : ∀ l ∈ linesOf s, isBulletLine l = true)
    (_h2 : ∀ l ∈ linesOf s, cleanLine l ≠ []) :
    extractBullets s = (linesOf s).map (fun l => String.mk (cleanLine l)) ∧
    (extractBullets s).length = (linesOf s).length ∧
    (∀ t : String,
      (extractBullets t).length = (linesOf t).countP isBulletLine) := by
  have hf : (linesOf s).filter isBulletLine = linesOf s :=
    List.filter_eq_self.mpr h1
  refine ⟨by rw [extractBullets, hf], by rw [extractBullets, hf, List.length_map], ?_⟩
  intro t
  rw [extractBullets, List.length_map]
  exact (List.countP_eq_length_filter _ _).symm

/-- Witness for C4 at a three-line bullet list. -/
theorem extract_bullets_marker_lines_witness :
    (∀ l ∈ linesOf "• Durable\n- Cheap\n* Light", isBulletLine l = true) ∧
    (∀ l ∈ linesOf "• Durable\n- Cheap\n* Light", cleanLine l ≠ []) ∧
    extractBullets "• Durable\n- Cheap\n* Light" =
      (linesOf "• Durable\n- Cheap\n* Light").map
        (fun l => String.mk (cleanLine l)) :=
  have h1 : ∀ l ∈ linesOf "• Durable\n- Cheap\n* Light",
      isBulletLine l = true := by decide
  have h2 : ∀ l ∈ linesOf "• Durable\n- Cheap\n* Light",
      cleanLine l ≠ [] := by decide
  ⟨h1, h2, (extract_bullets_marker_lines _ h1 h2).1⟩

theorem head?_dropWhile_false {α : Type} (p : α → Bool) :
    ∀ (l : List α) (a : α), (l.dropWhile p).head? = some a → p a = false
  | [], a, h => by simp [List.dropWhile] at h
  | x :: xs, a, h => by
    by_cases hx : p x = true
    · rw [List.dropWhile_cons_of_pos hx] at h
      exact head?_dropWhile_false p xs a h
    · rw [List.dropWhile_cons_of_neg hx] at h
      simp only [List.head?_cons, Option.some.injEq] at h
      subst h
      exact Bool.not_eq_true _ |>.mp hx

theorem all_space_of_pyStrip_nil (xs : List Char) (h : pyStrip xs = []) :
    ∀ c ∈ xs, isSpaceChar c = true := by
  intro c hc
  have h2 : (((xs.dropWhile isSpaceChar).reverse).dropWhile isSpaceChar) = [] := by
    have := congrArg List.reverse h
    simpa [pyStrip, pyRstrip, pyLstrip] using this
  have hall : ∀ d ∈ xs.dropWhile isSpaceChar, isSpaceChar d = true := by
    intro d hd
    exact List.dropWhile_eq_nil_iff.mp h2 d (List.mem_reverse.mpr hd)
  have hx : c ∈ xs.takeWhile isSpaceChar ++ xs.dropWhile isSpaceChar := by
    rw [List.takeWhile_append_dropWhile]
    exact hc
  rcases List.mem_append.mp hx with h1 | h1
  · exact List.mem_takeWhile_imp h1
  · exact hall c h1

theorem pyStrip_getLast_not_space (xs : List Char) (c : Char)
    (h : (pyStrip xs).getLast? = some c) : isSpaceChar c = false := by
  have h2 : (((xs.dropWhile isSpaceChar).reverse).dropWhile isSpaceChar).head? =
      some c := by
    have := h
    rwa [pyStrip, pyRstrip, pyLstrip, List.getLast?_reverse] at this
  exact head?_dropWhile_false isSpaceChar _ c h2

theorem line_all_markers_of_empty_bullet (l : List Char)
    (hb : isBulletLine l = true) (hc : cleanLine l = []) :
    pyStrip l ≠ [] ∧ ∀ c ∈ pyStrip l, isMarker c = true := by
  have hne : pyStrip l ≠ [] := by
    intro hnil
    rw [isBulletLine, hnil] at hb
    exact Bool.false_ne_true hb
  refine ⟨hne, ?_⟩
  have hall : ∀ c ∈ (pyStrip l).dropWhile isMarker, isSpaceChar c = true :=
    all_space_of_pyStrip_nil _ (by rwa [cleanLine, pyLstrip] at hc)
  rcases hu : (pyStrip l).dropWhile isMarker with _ | ⟨d, ds⟩
  · exact List.dropWhile_eq_nil_iff.mp hu
  · exfalso
    have hune : (pyStrip l).dropWhile isMarker ≠ [] := by rw [hu]; simp
    obtain ⟨e, he⟩ := Option.isSome_iff_exists.mp
      (List.getLast?_isSome.mpr hune)
    have hlast : (pyStrip l).getLast? = some e := by
      have hsplit :
          (pyStrip l).takeWhile isMarker ++ (pyStrip l).dropWhile isMarker =
            pyStrip l := List.takeWhile_append_dropWhile isMarker (pyStrip l)
      have halt := @List.getLast?_append Char
        ((pyStrip l).takeWhile isMarker) ((pyStrip l).dropWhile isMarker)
      rw [hsplit, he] at halt
      simpa using halt
    have hsp : isSpaceChar e = true :=
      hall e (List.mem_of_getLast?_eq_some he)
    have hnsp : isSpaceChar e = false := pyStrip_getLast_not_space l e hlast
    exact absurd (hsp.symm.trans hnsp) (by decide)

end ProductSummary

namespace ProductSummary

/-- C6 counterexample: the line `•` passes the marker filter but cleans to the
empty string, so the extraction can return an empty bullet. -/
theorem extract_bullets_empty_bullet : "" ∈ extractBullets "•" :=
  have h : extractBullets "•" = [""] := rfl
  h ▸ List.mem_singleton.mpr rfl

/-- C6 amended: every bullet returned by the extraction is non-empty provided
no input line trims to a non-empty run consisting solely of the marker
characters `•`, `-`, `*`; a line consisting only of markers is kept by the
filter but yields the empty-string bullet. -/
theorem extract_bullets_nonempty (s : String)
    (h : ∀ l ∈ linesOf s, pyStrip l ≠ [] →
      ¬(∀ c ∈ pyStrip l, isMarker c = true)) :
    ∀ b ∈ extractBullets s, b ≠ "" := by
  intro b hb hbe
  obtain ⟨l, hl, rfl⟩ := List.mem_map.mp hb
  have hlf := List.mem_filter.mp hl
  have hcl : cleanLine l = [] := by
    have hdata : (String.mk (cleanLine l)).data = String.data "" :=
      congrArg String.data hbe
    simpa using hdata
  obtain ⟨hne, hall⟩ := line_all_markers_of_empty_bullet l hlf.2 hcl
  exact h l hlf.1 hne hall

/-- Witness for C6 (amended) at a one-line bullet with real content. -/
theorem extract_bullets_nonempty_witness :
    (∀ l ∈ linesOf "• Durable", pyStrip l ≠ [] →
      ¬(∀ c ∈ pyStrip l, isMarker c = true)) ∧
    ∀ b ∈ extractBullets "• Durable", b ≠ "" :=
  have h : ∀ l ∈ linesOf "• Durable", pyStrip l ≠ [] →
      ¬(∀ c ∈ pyStrip l, isMarker c = true) := by decide
  ⟨h, extract_bullets_nonempty "• Durable" h⟩

/-- C7 counterexample: a non-mapping element produces no progress
notification at all (the `continue` precedes `st.progress`), and for a
mapping element the notification precedes the generation call instead of
following the element's completion. -/
theorem progress_events_counterexample :
    (processJsonDocument failingGen (.ok (.arr [JValue.null]))).1 = [] ∧
    (processJsonDocument failingGen (.ok (.arr [JValue.obj []]))).1 =
      [Ev.progress 1 1, Ev.genCall] :=
  ⟨rfl, rfl⟩

/-- C7 amended: during the iteration a progress notification carrying
(1-based position, total count) is emitted for every mapping element and for
no non-mapping element, and each such notification is emitted immediately
before that element's generation call. -/
theorem progress_events_trace (gen : JValue → Except String String)
    (ps : List JValue) :
    (processJsonDocument gen (.ok (.arr ps))).1 =
      (List.enumFrom 1 ps).flatMap (fun p =>
        if isObj p.2 = true then [Ev.progress p.1 ps.length, Ev.genCall]
        else []) := by
  simp [processJsonDocument, processLoop_fst]

end ProductSummary

namespace ProductSummary

theorem folderLoop_snd (gen : JValue → Except String String)
    (decode : String → Except String JValue) (fp : String) :
    ∀ files : List (String × Except String String),
      (folderLoop gen decode fp files).2 =
        files.map (fileOutcome gen decode fp)
  | [] => rfl
  | (name, readRes) :: rest => by
    have ih := folderLoop_snd gen decode fp rest
    cases readRes with
    | error msg => simp [folderLoop, fileOutcome, ih]
    | ok content =>
      cases hp : (processJsonDocument gen (decode content)).2 with
      | error e => simp [folderLoop, fileOutcome, hp, ih]
      | ok processed => simp [folderLoop, fileOutcome, hp, ih]

theorem fileOutcome_fst (gen : JValue → Except String String)
    (decode : String → Except String JValue) (fp : String)
    (file : String × Except String String) :
    (fileOutcome gen decode fp file).1 = file.1 := by
  obtain ⟨name, readRes⟩ := file
  cases readRes with
  | error msg => rfl
  | ok content =>
    cases hp : (processJsonDocument gen (decode content)).2 with
    | error e => simp [fileOutcome, hp]
    | ok processed => simp [fileOutcome, hp]

theorem fileOutcome_isSuccess (gen : JValue → Except String String)
    (decode : String → Except String JValue) (fp : String)
    (file : String × Except String String) :
    (fileOutcome gen decode fp file).2.isSuccess =
      !(fileFails gen decode file) := by
  obtain ⟨name, readRes⟩ := file
  cases readRes with
  | error msg => rfl
  | ok content =>
    cases hp : (processJsonDocument gen (decode content)).2 with
    | error e => simp [fileOutcome, fileFails, hp, Outcome.isSuccess]
    | ok processed => simp [fileOutcome, fileFails, hp, Outcome.isSuccess]

theorem countP_bnot {α : Type} (p : α → Bool) :
    ∀ l : List α, l.countP (fun a => !(p a)) + l.countP p = l.length
  | [] => rfl
  | x :: xs => by
    have ih := countP_bnot p xs
    by_cases hx : p x = true <;> simp [List.countP_cons, hx] <;> omega

/-- C8: in directory mode the outcome map has one entry per discovered file,
in discovery order and keyed by the file names; the number of failure entries
is exactly the number of files whose read or document processing fails, the
rest are success entries, and a failing file never suppresses the entries of
the other files. -/
theorem process_folder_outcomes (gen : JValue → Except String String)
    (decode : String → Except String JValue) (fp : String)
    (files : List (String × Except String String)) :
    ((processFolder gen decode fp files).2).length = files.length ∧
    ((processFolder gen decode fp files).2).map Prod.fst =
      files.map Prod.fst ∧
    ((processFolder gen decode fp files).2).countP
        (fun r => !(r.2.isSuccess)) = files.countP (fileFails gen decode) ∧
    ((processFolder gen decode fp files).2).countP
        (fun r => r.2.isSuccess) =
      files.length - files.countP (fileFails gen decode) := by
  have hsnd := folderLoop_snd gen decode fp files
  have hfail : ∀ file : String × Except String String,
      (!(fileOutcome gen decode fp file).2.isSuccess) =
        fileFails gen decode file := by
    intro file
    rw [fileOutcome_isSuccess, Bool.not_not]
  refine ⟨?_, ?_, ?_, ?_⟩
  · rw [processFolder, hsnd, List.length_map]
  · rw [processFolder, hsnd, List.map_map]
    exact List.map_congr_left fun file _ => fileOutcome_fst gen decode fp file
  · rw [processFolder, hsnd, List.countP_map]
    refine List.countP_congr fun file _ => ?_
    simp only [Function.comp_apply]
    rw [hfail file]
  · rw [processFolder, hsnd, List.countP_map]
    have h1 : List.countP
        ((fun r : String × Outcome => r.2.isSuccess) ∘
          fileOutcome gen decode fp) files =
        files.countP (fun file => !(fileFails gen decode file)) := by
      refine List.countP_congr fun file _ => ?_
      simp only [Function.comp_apply]
      rw [← hfail file, Bool.not_not]
    have h2 := countP_bnot (fileFails gen decode) files
    rw [h1]
    omega

end ProductSummary

namespace ProductSummary

theorem folderLoop_mem_success (gen : JValue → Except String String)
    (decode : String → Except String JValue) (fp : String) :
    ∀ (files : List (String × Except String String)) (name content : String)
      (processed : List JValue),
      (name, Except.ok content) ∈ files →
      (processJsonDocument gen (decode content)).2 = .ok processed →
      (fp ++ "/processed_" ++ name, jsonDumpsIndent2 (.arr processed)) ∈
        (folderLoop gen decode fp files).1 ∧
      (name, Outcome.success processed.length (fp ++ "/processed_" ++ name)) ∈
        (folderLoop gen decode fp files).2
  | [], _, _, _, hmem, _ => absurd hmem (List.not_mem_nil _)
  | (fname, readRes) :: rest, name, content, processed, hmem, hp => by
    rcases List.mem_cons.mp hmem with heq | hmem2
    · injection heq with h1 h2
      subst h1
      subst h2
      simp only [folderLoop, hp]
      exact ⟨List.mem_cons_self _ _, List.mem_cons_self _ _⟩
    · have ih := folderLoop_mem_success gen decode fp rest name content
        processed hmem2 hp
      cases readRes with
      | error msg =>
        simp only [folderLoop]
        exact ⟨ih.1, List.mem_cons_of_mem _ ih.2⟩
      | ok content2 =>
        cases hp2 : (processJsonDocument gen (decode content2)).2 with
        | error e =>
          simp only [folderLoop, hp2]
          exact ⟨ih.1, List.mem_cons_of_mem _ ih.2⟩
        | ok processed2 =>
          simp only [folderLoop, hp2]
          exact ⟨List.mem_cons_of_mem _ ih.1, List.mem_cons_of_mem _ ih.2⟩

end ProductSummary

namespace ProductSummary

/-- C9: in directory mode every successfully processed file is written, as
`json.dumps(..., indent=2)` output, to the sibling path
`<folder>/processed_<name>`, and that file's success outcome records the same
destination path. -/
theorem process_folder_success_write (gen : JValue → Except String String)
    (decode : String → Except String JValue) (fp : String)
    (files : List (String × Except String String)) (name content : String)
    (processed : List JValue)
    (hmem : (name, Except.ok content) ∈ files)
    (hp : (processJsonDocument gen (decode content)).2 = .ok processed) :
    (fp ++ "/processed_" ++ name, jsonDumpsIndent2 (.arr processed)) ∈
      (processFolder gen decode fp files).1 ∧
    (name, Outcome.success processed.length (fp ++ "/processed_" ++ name)) ∈
      (processFolder gen decode fp files).2 :=
  folderLoop_mem_success gen decode fp files name content processed hmem hp

/-- Witness for C9 at a one-file folder whose file decodes to the empty
array. -/
theorem process_folder_success_write_witness :
    (("a.json", Except.ok "[]") ∈
      [("a.json", (Except.ok "[]" : Except String String))]) ∧
    (processJsonDocument failingGen
      (Except.ok (JValue.arr []))).2 = .ok [] ∧
    ("d" ++ "/processed_" ++ "a.json", jsonDumpsIndent2 (.arr [])) ∈
      (processFolder failingGen (fun _ => Except.ok (JValue.arr [])) "d"
        [("a.json", Except.ok "[]")]).1 ∧
    ("a.json", Outcome.success (List.length ([] : List JValue))
        ("d" ++ "/processed_" ++ "a.json")) ∈
      (processFolder failingGen (fun _ => Except.ok (JValue.arr [])) "d"
        [("a.json", Except.ok "[]")]).2 :=
  have hmem : ("a.json", Except.ok "[]") ∈
      [("a.json", (Except.ok "[]" : Except String String))] :=
    List.mem_singleton.mpr rfl
  have hp : (processJsonDocument failingGen
      (Except.ok (JValue.arr []))).2 = .ok [] := rfl
  ⟨hmem, hp, process_folder_success_write failingGen
    (fun _ => Except.ok (JValue.arr [])) "d" [("a.json", Except.ok "[]")]
    "a.json" "[]" [] hmem hp⟩

/-- C10: the `product_count` recorded in a file's success outcome equals the
number of top-level elements of that file's decoded array, including
non-mapping elements that were skipped. -/
theorem process_folder_success_count (gen : JValue → Except String String)
    (decode : String → Except String JValue) (fp : String)
    (files : List (String × Except String String)) (name content : String)
    (ps : List JValue)
    (hmem : (name, Except.ok content) ∈ files)
    (hdec : decode content = .ok (.arr ps)) :
    (name, Outcome.success ps.length (fp ++ "/processed_" ++ name)) ∈
      (processFolder gen decode fp files).2 := by
  have hp : (processJsonDocument gen (decode content)).2 =
      .ok (ps.map (enrichElement gen)) := by
    rw [hdec]
    simp [processJsonDocument, processLoop_snd]
  have h := (folderLoop_mem_success gen decode fp files name content
    (ps.map (enrichElement gen)) hmem hp).2
  simpa [processFolder, List.length_map] using h

/-- Witness for C10 at a decoded array holding one skipped non-mapping
element and one mapping element: the recorded count is 2. -/
theorem process_folder_success_count_witness :
    (("a.json", Except.ok "x") ∈
      [("a.json", (Except.ok "x" : Except String String))]) ∧
    ((fun _ : String => (Except.ok (JValue.arr [JValue.null, JValue.obj []]) :
        Except String JValue)) "x" =
      Except.ok (JValue.arr [JValue.null, JValue.obj []])) ∧
    ("a.json", Outcome.success 2 ("d" ++ "/processed_" ++ "a.json")) ∈
      (processFolder failingGen
        (fun _ : String =>
          (Except.ok (JValue.arr [JValue.null, JValue.obj []]) :
            Except String JValue)) "d"
        [("a.json", Except.ok "x")]).2 :=
  have hmem : ("a.json", Except.ok "x") ∈
      [("a.json", (Except.ok "x" : Except String String))] :=
    List.mem_singleton.mpr rfl
  have hdec : (fun _ : String =>
      (Except.ok (JValue.arr [JValue.null, JValue.obj []]) :
        Except String JValue)) "x" =
      Except.ok (JValue.arr [JValue.null, JValue.obj []]) := rfl
  ⟨hmem, hdec, process_folder_success_count failingGen
    (fun _ : String =>
      (Except.ok (JValue.arr [JValue.null, JValue.obj []]) :
        Except String JValue)) "d"
    [("a.json", Except.ok "x")] "a.json" "x" [JValue.null, JValue.obj []]
    hmem hdec⟩

end ProductSummary
